import Mathlib

/-!
Verification development for the NanoClaw message router, IPC command bus and
host-change approval state machine. Each definition is a shallow embedding of
the corresponding TypeScript function; external collaborators (the container
agent, the cron library, the Gmail MCP, JS `Date`) appear as explicit oracle
parameters. Strings are JavaScript strings; where JS truthiness of an optional
string field matters it is modelled explicitly.
-/

namespace NanoClaw

/-- JS truthiness of an optional string field: the field is present and non-empty. -/
def truthy : Option String → Bool
  | none => false
  | some s => !s.isEmpty

/-- The whitespace class used by JS `\s` and `trim` (ASCII part). -/
def isWS (c : Char) : Bool :=
  c = ' ' || c = '\t' || c = '\n' || c = '\r' || c = '\x0b' || c = '\x0c'

/-- JS `String.prototype.trim` on the character list. -/
def jsTrim (s : String) : String :=
  String.mk (((s.toList.dropWhile isWS).reverse.dropWhile isWS).reverse)

/-- Case-insensitive strip of a literal prefix, returning the remainder of the
subject when the prefix matches (ASCII case folding, as the `i` regex flag). -/
def stripCI : List Char → List Char → Option (List Char)
  | [], s => some s
  | _ :: _, [] => none
  | pc :: pr, sc :: sr => if pc.toLower = sc.toLower then stripCI pr sr else none

/-- The JS regex word class `\w` = `[A-Za-z0-9_]`. -/
def isWordChar (c : Char) : Bool := c.isAlpha || c.isDigit || c = '_'

/-! ## Discord message chunking (`splitDiscordMessage`, src/index.ts) -/

def DISCORD_MAX_LENGTH : Nat := 1900

/-- JS `s.lastIndexOf(c, pos)`: the largest index `i ≤ pos` holding `c`, if any. -/
def lastIdxLe (c : Char) (s : List Char) : Nat → Option Nat
  | 0 => if s[0]? = some c then some 0 else none
  | n + 1 => if s[n + 1]? = some c then some (n + 1) else lastIdxLe c s n

/-- The `-1 or 0` cases of `lastIndexOf` behave identically under the source's
`splitAt <= 0` test, so both are mapped to `0`. -/
def posOrZero : Option Nat → Nat
  | none => 0
  | some i => i

/-- The split index chosen for an over-long remainder: last newline within the
limit, else last space within the limit, else a hard split at the limit
(indices `≤ 0` fall through, exactly as the source's `splitAt <= 0` tests). -/
def splitPoint (remaining : List Char) : Nat :=
  if 0 < posOrZero (lastIdxLe '\n' remaining DISCORD_MAX_LENGTH) then
    posOrZero (lastIdxLe '\n' remaining DISCORD_MAX_LENGTH)
  else if 0 < posOrZero (lastIdxLe ' ' remaining DISCORD_MAX_LENGTH) then
    posOrZero (lastIdxLe ' ' remaining DISCORD_MAX_LENGTH)
  else DISCORD_MAX_LENGTH

/-- Embeds `remaining.slice(splitAt).replace(/^\n/, '')`: drop one leading newline. -/
def dropLeadingNewline : List Char → List Char
  | [] => []
  | c :: rest => if c = '\n' then rest else c :: rest

/-- The `while (remaining.length > 0)` loop of `splitDiscordMessage`, with an
explicit fuel argument (`fuel ≥ remaining.length` always suffices, proved
below, so the fuel is not a behavioural restriction). -/
def splitGo : Nat → List Char → List (List Char)
  | 0, _ => []
  | fuel + 1, remaining =>
    if remaining.length = 0 then []
    else if remaining.length ≤ DISCORD_MAX_LENGTH then [remaining]
    else
      remaining.take (splitPoint remaining) ::
        splitGo fuel (dropLeadingNewline (remaining.drop (splitPoint remaining)))

/-- Embedding of `splitDiscordMessage` from src/index.ts, on character lists. -/
def splitDiscordMessage (text : List Char) : List (List Char) :=
  if text.length ≤ DISCORD_MAX_LENGTH then [text] else splitGo text.length text

/-- Interleave the chunks with the boundary separators that the chunker dropped
(`joinInter chunks seps` re-inserts `seps` between/after the chunks). -/
def joinInter : List (List Char) → List (List Char) → List Char
  | [], seps => seps.flatten
  | c :: cs, [] => c ++ joinInter cs []
  | c :: cs, s :: ss => c ++ s ++ joinInter cs ss

theorem lastIdxLe_le {c : Char} {s : List Char} {pos i : Nat}
    (h : lastIdxLe c s pos = some i) : i ≤ pos ∧ s[i]? = some c := by
  induction pos with
  | zero =>
    unfold lastIdxLe at h
    split at h
    · injection h with h'
      subst h'
      exact ⟨Nat.le_refl 0, by assumption⟩
    · cases h
  | succ n ih =>
    unfold lastIdxLe at h
    split at h
    · injection h with h'
      subst h'
      exact ⟨Nat.le_refl _, by assumption⟩
    · rcases ih h with ⟨h1, h2⟩
      exact ⟨Nat.le_succ_of_le h1, h2⟩

theorem lastIdxLe_max {c : Char} {s : List Char} {pos j : Nat}
    (hj : j ≤ pos) (hc : s[j]? = some c) :
    ∃ i, lastIdxLe c s pos = some i ∧ j ≤ i := by
  induction pos with
  | zero =>
    have hj0 : j = 0 := Nat.le_zero.mp hj
    subst hj0
    exact ⟨0, by simp [lastIdxLe, hc], Nat.le_refl 0⟩
  | succ n ih =>
    by_cases h : s[n + 1]? = some c
    · exact ⟨n + 1, by simp [lastIdxLe, h], hj⟩
    · have hj' : j ≤ n := by
        rcases Nat.lt_or_ge j (n + 1) with hlt | hge
        · exact Nat.lt_succ_iff.mp hlt
        · exfalso
          have hje : j = n + 1 := Nat.le_antisymm hj hge
          rw [hje] at hc
          exact h hc
      rcases ih hj' with ⟨i, hi, hji⟩
      exact ⟨i, by simp [lastIdxLe, h, hi], hji⟩

theorem lastIdxLe_none {c : Char} {s : List Char} {pos : Nat}
    (h : lastIdxLe c s pos = none) : ∀ j, j ≤ pos → s[j]? ≠ some c := by
  intro j hj hc
  rcases lastIdxLe_max hj hc with ⟨i, hi, _⟩
  rw [h] at hi
  cases hi

theorem posOrZero_lastIdxLe_le (c : Char) (s : List Char) (pos : Nat) :
    posOrZero (lastIdxLe c s pos) ≤ pos := by
  cases h : lastIdxLe c s pos with
  | none => exact Nat.zero_le _
  | some i => exact (lastIdxLe_le h).1

theorem splitPoint_pos (r : List Char) : 0 < splitPoint r := by
  unfold splitPoint
  split_ifs with h1 h2
  · exact h1
  · exact h2
  · decide

theorem splitPoint_le (r : List Char) : splitPoint r ≤ DISCORD_MAX_LENGTH := by
  unfold splitPoint
  split_ifs with h1 h2
  · exact posOrZero_lastIdxLe_le _ _ _
  · exact posOrZero_lastIdxLe_le _ _ _
  · exact Nat.le_refl _

theorem dropLeadingNewline_length_le (l : List Char) :
    (dropLeadingNewline l).length ≤ l.length := by
  cases l with
  | nil => exact Nat.le_refl _
  | cons c rest =>
    simp only [dropLeadingNewline]
    split
    · simp
    · exact Nat.le_refl _

theorem splitGo_chunks_le (fuel : Nat) :
    ∀ r : List Char, ∀ c ∈ splitGo fuel r, c.length ≤ DISCORD_MAX_LENGTH := by
  induction fuel with
  | zero =>
    intro r c hc
    simp [splitGo] at hc
  | succ fuel ih =>
    intro r c hc
    unfold splitGo at hc
    split_ifs at hc with h0 hle
    · simp at hc
    · rw [List.mem_singleton] at hc
      subst hc
      exact hle
    · rcases List.mem_cons.mp hc with hc | hc
      · subst hc
        exact Nat.le_trans (List.length_take_le _ _) (splitPoint_le r)
      · exact ih _ c hc

theorem splitGo_of_len_zero {r : List Char} (h : r.length = 0) (fuel : Nat) :
    splitGo fuel r = [] := by
  cases fuel with
  | zero => rfl
  | succ fuel => simp [splitGo, h]

theorem splitGo_fuel_free (f1 : Nat) :
    ∀ f2 r, r.length ≤ f1 → r.length ≤ f2 → splitGo f1 r = splitGo f2 r := by
  induction f1 with
  | zero =>
    intro f2 r h1 h2
    have hr : r.length = 0 := Nat.le_zero.mp h1
    rw [splitGo_of_len_zero hr, splitGo_of_len_zero hr]
  | succ f1 ih =>
    intro f2 r h1 h2
    cases f2 with
    | zero =>
      have hr : r.length = 0 := Nat.le_zero.mp h2
      rw [splitGo_of_len_zero hr, splitGo_of_len_zero hr]
    | succ f2 =>
      unfold splitGo
      split_ifs with h0 hle
      · rfl
      · rfl
      · have hk1 : 1 ≤ splitPoint r := splitPoint_pos r
        have hlen : (dropLeadingNewline (r.drop (splitPoint r))).length ≤ r.length - 1 := by
          have hd := dropLeadingNewline_length_le (r.drop (splitPoint r))
          rw [List.length_drop] at hd
          omega
        rw [ih f2 _ (by omega) (by omega)]

theorem splitGo_join (fuel : Nat) :
    ∀ r : List Char, r.length ≤ fuel →
      ∃ seps : List (List Char), (∀ s ∈ seps, s = [] ∨ s = ['\n']) ∧
        joinInter (splitGo fuel r) seps = r := by
  induction fuel with
  | zero =>
    intro r h
    have hr : r = [] := List.length_eq_zero.mp (Nat.le_zero.mp h)
    subst hr
    exact ⟨[], by simp, rfl⟩
  | succ fuel ih =>
    intro r h
    unfold splitGo
    split_ifs with h0 hle
    · have hr : r = [] := List.length_eq_zero.mp h0
      subst hr
      exact ⟨[], by simp, rfl⟩
    · exact ⟨[], by simp, by simp [joinInter]⟩
    · have hk1 : 1 ≤ splitPoint r := splitPoint_pos r
      have hkD : splitPoint r ≤ DISCORD_MAX_LENGTH := splitPoint_le r
      have hlen : (dropLeadingNewline (r.drop (splitPoint r))).length ≤ fuel := by
        have hd := dropLeadingNewline_length_le (r.drop (splitPoint r))
        rw [List.length_drop] at hd
        omega
      rcases ih _ hlen with ⟨seps, hs, hj⟩
      have hsplit : r.take (splitPoint r) ++ r.drop (splitPoint r) = r :=
        List.take_append_drop _ _
      cases hrest : r.drop (splitPoint r) with
      | nil =>
        exfalso
        have hlen0 : r.length - splitPoint r = 0 := by
          have hcg := congrArg List.length hrest
          rw [List.length_drop] at hcg
          simpa using hcg
        have hDle : DISCORD_MAX_LENGTH < r.length := Nat.lt_of_not_le hle
        omega
      | cons c rest' =>
        by_cases hc : c = '\n'
        · subst hc
          have hdl : dropLeadingNewline ('\n' :: rest') = rest' := by
            simp [dropLeadingNewline]
          rw [hrest, hdl] at hj
          refine ⟨['\n'] :: seps, ?_, ?_⟩
          · intro s hs'
            rcases List.mem_cons.mp hs' with hs' | hs'
            · exact Or.inr hs'
            · exact hs s hs'
          · rw [hdl]
            have hun : joinInter (r.take (splitPoint r) :: splitGo fuel rest')
                (['\n'] :: seps)
                = r.take (splitPoint r) ++ ['\n'] ++ joinInter (splitGo fuel rest') seps := rfl
            rw [hun, hj]
            have hstep : r.take (splitPoint r) ++ ['\n'] ++ rest'
                = r.take (splitPoint r) ++ r.drop (splitPoint r) := by
              rw [hrest]
              simp
            rw [hstep, hsplit]
        · have hdl : dropLeadingNewline (c :: rest') = c :: rest' := by
            simp [dropLeadingNewline, hc]
          rw [hrest, hdl] at hj
          refine ⟨[] :: seps, ?_, ?_⟩
          · intro s hs'
            rcases List.mem_cons.mp hs' with hs' | hs'
            · exact Or.inl hs'
            · exact hs s hs'
          · rw [hdl]
            have hun : joinInter (r.take (splitPoint r) :: splitGo fuel (c :: rest'))
                ([] :: seps)
                = r.take (splitPoint r) ++ [] ++ joinInter (splitGo fuel (c :: rest')) seps := rfl
            rw [hun, hj]
            have hstep : r.take (splitPoint r) ++ [] ++ (c :: rest')
                = r.take (splitPoint r) ++ r.drop (splitPoint r) := by
              rw [hrest]
              simp
            rw [hstep, hsplit]

theorem posOrZero_eq_zero {c : Char} {r : List Char}
    (h : ∀ j, 0 < j → j ≤ DISCORD_MAX_LENGTH → r[j]? ≠ some c) :
    posOrZero (lastIdxLe c r DISCORD_MAX_LENGTH) = 0 := by
  cases hi : lastIdxLe c r DISCORD_MAX_LENGTH with
  | none => rfl
  | some i =>
    rcases lastIdxLe_le hi with ⟨hle, hci⟩
    rcases Nat.eq_zero_or_pos i with h0 | hpos
    · simp [posOrZero, h0]
    · exact absurd hci (h i hpos hle)

theorem splitPoint_newline {r : List Char}
    (h : ∃ j, 0 < j ∧ j ≤ DISCORD_MAX_LENGTH ∧ r[j]? = some '\n') :
    0 < splitPoint r ∧ r[splitPoint r]? = some '\n' ∧
      ∀ j, j ≤ DISCORD_MAX_LENGTH → r[j]? = some '\n' → j ≤ splitPoint r := by
  rcases h with ⟨j, hj0, hjD, hjc⟩
  rcases lastIdxLe_max hjD hjc with ⟨i, hi, hji⟩
  have hi0 : 0 < i := Nat.lt_of_lt_of_le hj0 hji
  have hsp : splitPoint r = i := by
    unfold splitPoint
    rw [hi]
    simp [posOrZero, hi0]
  rw [hsp]
  refine ⟨hi0, (lastIdxLe_le hi).2, ?_⟩
  intro j' hj'D hj'c
  rcases lastIdxLe_max hj'D hj'c with ⟨i2, hi2, hji2⟩
  rw [hi] at hi2
  injection hi2 with h2
  omega

theorem splitPoint_space {r : List Char}
    (hnl : ∀ j, 0 < j → j ≤ DISCORD_MAX_LENGTH → r[j]? ≠ some '\n')
    (h : ∃ j, 0 < j ∧ j ≤ DISCORD_MAX_LENGTH ∧ r[j]? = some ' ') :
    0 < splitPoint r ∧ r[splitPoint r]? = some ' ' ∧
      ∀ j, j ≤ DISCORD_MAX_LENGTH → r[j]? = some ' ' → j ≤ splitPoint r := by
  rcases h with ⟨j, hj0, hjD, hjc⟩
  rcases lastIdxLe_max hjD hjc with ⟨i, hi, hji⟩
  have hi0 : 0 < i := Nat.lt_of_lt_of_le hj0 hji
  have hz := posOrZero_eq_zero hnl
  have hsp : splitPoint r = i := by
    unfold splitPoint
    rw [hz, hi]
    simp [posOrZero, hi0]
  rw [hsp]
  refine ⟨hi0, (lastIdxLe_le hi).2, ?_⟩
  intro j' hj'D hj'c
  rcases lastIdxLe_max hj'D hj'c with ⟨i2, hi2, hji2⟩
  rw [hi] at hi2
  injection hi2 with h2
  omega

theorem splitPoint_hard {r : List Char}
    (hnl : ∀ j, 0 < j → j ≤ DISCORD_MAX_LENGTH → r[j]? ≠ some '\n')
    (hsp : ∀ j, 0 < j → j ≤ DISCORD_MAX_LENGTH → r[j]? ≠ some ' ') :
    splitPoint r = DISCORD_MAX_LENGTH := by
  unfold splitPoint
  rw [posOrZero_eq_zero hnl, posOrZero_eq_zero hsp]
  simp

/-- C9: the channel chunker `splitDiscordMessage` (1) produces chunks each no
longer than the channel limit of 1900 characters; (2) concatenating the chunks
restores the original text once the dropped boundary separator (nothing, or the
single newline removed at a newline split) is re-inserted at each split;
(3) terminates — the loop is fuel-insensitive as soon as the fuel covers the
text length; and (4) every over-long remainder is split at the last newline
within the limit when one exists at a positive index, else at the last space
within the limit, and is hard-split at exactly the limit only when neither
boundary exists within it. -/
theorem C9_chunker_correct (t : List Char) :
    (∀ c ∈ splitDiscordMessage t, c.length ≤ DISCORD_MAX_LENGTH) ∧
    (∃ seps : List (List Char), (∀ s ∈ seps, s = [] ∨ s = ['\n']) ∧
      joinInter (splitDiscordMessage t) seps = t) ∧
    (∀ f1 f2, t.length ≤ f1 → t.length ≤ f2 → splitGo f1 t = splitGo f2 t) ∧
    (∀ r : List Char,
      ((∃ j, 0 < j ∧ j ≤ DISCORD_MAX_LENGTH ∧ r[j]? = some '\n') →
        r[splitPoint r]? = some '\n' ∧
          ∀ j, j ≤ DISCORD_MAX_LENGTH → r[j]? = some '\n' → j ≤ splitPoint r) ∧
      ((∀ j, 0 < j → j ≤ DISCORD_MAX_LENGTH → r[j]? ≠ some '\n') →
        (∃ j, 0 < j ∧ j ≤ DISCORD_MAX_LENGTH ∧ r[j]? = some ' ') →
        r[splitPoint r]? = some ' ' ∧
          ∀ j, j ≤ DISCORD_MAX_LENGTH → r[j]? = some ' ' → j ≤ splitPoint r) ∧
      ((∀ j, 0 < j → j ≤ DISCORD_MAX_LENGTH → r[j]? ≠ some '\n') →
        (∀ j, 0 < j → j ≤ DISCORD_MAX_LENGTH → r[j]? ≠ some ' ') →
        splitPoint r = DISCORD_MAX_LENGTH)) := by
  refine ⟨?_, ?_, ?_, ?_⟩
  · intro c hc
    unfold splitDiscordMessage at hc
    split_ifs at hc with hle
    · rw [List.mem_singleton] at hc
      subst hc
      exact hle
    · exact splitGo_chunks_le _ _ c hc
  · unfold splitDiscordMessage
    split_ifs with hle
    · exact ⟨[], by simp, by simp [joinInter]⟩
    · exact splitGo_join _ _ (Nat.le_refl _)
  · exact fun f1 f2 h1 h2 => splitGo_fuel_free f1 f2 t h1 h2
  · intro r
    refine ⟨?_, ?_, splitPoint_hard⟩
    · intro h
      exact ⟨(splitPoint_newline h).2.1, (splitPoint_newline h).2.2⟩
    · intro h1 h2
      exact ⟨(splitPoint_space h1 h2).2.1, (splitPoint_space h1 h2).2.2⟩

/-- Concrete instantiation of the C9 theorem: a 2000-character text with no
newline and no space is hard-split at exactly the limit. -/
theorem C9_chunker_correct_witness :
    splitPoint (List.replicate 2000 'a') = DISCORD_MAX_LENGTH := by
  have h := ((C9_chunker_correct (List.replicate 2000 'a')).2.2.2
    (List.replicate 2000 'a')).2.2
  apply h
  · intro j hj0 hjD hcon
    rw [List.getElem?_replicate] at hcon
    split_ifs at hcon
    exact absurd (Option.some.inj hcon) (by decide)
  · intro j hj0 hjD hcon
    rw [List.getElem?_replicate] at hcon
    split_ifs at hcon
    exact absurd (Option.some.inj hcon) (by decide)

/-! ## Data model (src/types.ts) -/

/-- Embedding of `RegisteredGroup` from src/types.ts (the optional `containerConfig` plays no
role in any routing decision and is omitted). -/
structure RegisteredGroup where
  name : String
  folder : String
  trigger : String
  added_at : String
  deriving DecidableEq

/-- A normalized inbound message (`NewMessage` from src/types.ts). -/
structure NewMessage where
  id : String
  chat_jid : String
  sender_name : String
  content : String
  timestamp : String
  deriving DecidableEq

/-- The `status` field of a `HostModificationRequest`. -/
inductive HCStatus
  | pending
  | approved
  | denied
  | applied
  | failed
  deriving DecidableEq

/-- Embedding of `HostModificationRequest` from src/types.ts. -/
structure HostModificationRequest where
  id : String
  groupFolder : String
  chatJid : String
  summary : String
  filePath : String
  timestamp : String
  status : HCStatus
  approvedBy : Option String
  error : Option String
  deriving DecidableEq

/-! ## Approval machinery (src/host-changes-scanner.ts) -/

/-- After the approval keyword, the regex remainder `(?:\s+(hc-\d+))?\s*$`:
`some none` when no explicit id is given, `some (some id)` with the captured id
text (case preserved, as the JS capture group does), `none` when the remainder
does not match. -/
def parseApprovalTail (s : List Char) : Option (Option (List Char)) :=
  if s.all isWS then some none
  else if (s.dropWhile isWS).length = s.length then none
  else
    match stripCI ['h', 'c', '-'] (s.dropWhile isWS) with
    | none => none
    | some s2 =>
      if (s2.takeWhile Char.isDigit).length = 0 then none
      else if (s2.dropWhile Char.isDigit).all isWS then
        some (some ((s.dropWhile isWS).take (3 + (s2.takeWhile Char.isDigit).length)))
      else none

/-- The JS regex `^(approve|deny)(?:\s+(hc-\d+))?\s*$` with the `i` flag:
`some (approved, optional captured id)` on a match. -/
def parseApprovalKeyword (content : List Char) : Option (Bool × Option (List Char)) :=
  match stripCI ['a', 'p', 'p', 'r', 'o', 'v', 'e'] content with
  | some rest =>
    match parseApprovalTail rest with
    | some id? => some (true, id?)
    | none => none
  | none =>
    match stripCI ['d', 'e', 'n', 'y'] content with
    | some rest =>
      match parseApprovalTail rest with
      | some id? => some (false, id?)
      | none => none
    | none => none

/-- The result shape of `checkApprovalMessage`. -/
structure ApprovalCheck where
  isApproval : Bool
  requestId : String
  approved : Bool
  deriving DecidableEq

/-- One step of the `for (const req of pendingRequests.values())` scan that
keeps the latest (strictly greater timestamp) pending request for the chat. -/
def latestStep (chatJid : String) (latest : Option HostModificationRequest)
    (req : HostModificationRequest) : Option HostModificationRequest :=
  if req.chatJid = chatJid ∧ req.status = HCStatus.pending then
    match latest with
    | none => some req
    | some l => if l.timestamp < req.timestamp then some req else some l
  else latest

/-- The most recent pending request for a chat (the `latest` computed by
`checkApprovalMessage`); the request list is the `pendingRequests` map's values
in insertion order. -/
def latestPending (reqs : List HostModificationRequest) (chatJid : String) :
    Option HostModificationRequest :=
  reqs.foldl (latestStep chatJid) none

/-- Embedding of `checkApprovalMessage` from src/host-changes-scanner.ts. -/
def checkApprovalMessage (pendingRequests : List HostModificationRequest)
    (content : String) (chatJid : String) : ApprovalCheck :=
  match parseApprovalKeyword content.toList with
  | none => ⟨false, "", false⟩
  | some (approved, some idChars) => ⟨true, String.mk idChars, approved⟩
  | some (approved, none) =>
    match latestPending pendingRequests chatJid with
    | none => ⟨false, "", false⟩
    | some req => ⟨true, req.id, approved⟩

/-- Outcome of the synchronous external `claude --print` plan application. -/
inductive ApplyOutcome
  | succeeded (result : String)
  | errored (err : String)
  deriving DecidableEq

/-- In-place mutation of the request held in the `pendingRequests` map. -/
def updateRequest (reqs : List HostModificationRequest) (id : String)
    (f : HostModificationRequest → HostModificationRequest) :
    List HostModificationRequest :=
  reqs.map fun r => if r.id = id then f r else r

/-- Embedding of `handleApproval` from src/host-changes-scanner.ts over the explicit request
list. The external CLI invocation is the `applyOutcome` oracle; `sendMessage`
and the artifact renames are caught or touch no request state and are omitted.
The second component is the trace of assignments made to the request's
`status` field, in order. -/
def handleApproval (reqs : List HostModificationRequest) (requestId : String)
    (approved : Bool) (approvedBy : String) (applyOutcome : ApplyOutcome) :
    List HostModificationRequest × List HCStatus :=
  match reqs.find? (fun r => r.id == requestId) with
  | none => (reqs, [])
  | some request =>
    if request.status ≠ HCStatus.pending then (reqs, [])
    else if approved = false then
      (updateRequest reqs requestId (fun r =>
        { r with status := HCStatus.denied, approvedBy := some approvedBy }),
        [HCStatus.denied])
    else
      match applyOutcome with
      | ApplyOutcome.succeeded _ =>
        (updateRequest reqs requestId (fun r =>
          { r with status := HCStatus.applied, approvedBy := some approvedBy }),
          [HCStatus.approved, HCStatus.applied])
      | ApplyOutcome.errored e =>
        (updateRequest reqs requestId (fun r =>
          { r with
              status := HCStatus.failed
              approvedBy := some approvedBy
              error := some e }),
          [HCStatus.approved, HCStatus.failed])

/-! ## Message router (src/index.ts) -/

/-- Modelled JS regex test
`content.match(new RegExp('^' + trigger + '\\b', 'i'))` for a trigger without
regex metacharacters: a case-insensitive literal prefix followed by a word
boundary (`\b`: exactly one side of the position is a `\w` character; the end
of the string counts as non-word). -/
def matchesTrigger (trigger content : String) : Bool :=
  match stripCI trigger.toList content.toList with
  | none => false
  | some rest =>
    match trigger.toList.getLast?, rest with
    | none, [] => false
    | none, c :: _ => isWordChar c
    | some lastC, [] => isWordChar lastC
    | some lastC, c :: _ => isWordChar lastC != isWordChar c

/-- Association-list lookup, modelling `record[key]` access. -/
def lookupAssoc {α : Type} (l : List (String × α)) (k : String) : Option α :=
  (l.find? (fun p => p.1 == k)).map Prod.snd

/-- Association-list assignment, modelling `record[key] = v`. -/
def setAssoc (l : List (String × String)) (k v : String) :
    List (String × String) :=
  if l.any (fun p => p.1 == k) then l.map (fun p => if p.1 == k then (k, v) else p)
  else l ++ [(k, v)]

/-- Outcome of one `runContainerAgent` call: a resolved output
`{status, result, newSessionId}` (with `isError` true for `status: 'error'`)
or a thrown error. -/
inductive AgentBehavior
  | output (isError : Bool) (result : String) (newSessionId : Option String)
  | thrown
  deriving DecidableEq

/-- The router state mutated while processing one inbound message. -/
structure RouterState where
  lastTimestamp : String
  lastAgentTimestamp : List (String × String)
  sessions : List (String × String)
  pendingRequests : List HostModificationRequest
  deriving DecidableEq

/-- The router's external collaborators: the registered-group registry, the
container agent, and the plan-application CLI. -/
structure Env where
  registeredGroups : List (String × RegisteredGroup)
  agent : NewMessage → AgentBehavior
  applyOutcome : String → ApplyOutcome

/-- Embedding of `runAgent` from src/index.ts: invokes the container agent, persists a
returned session token (this happens even for an error-status output), and
returns the textual result — `none` for an error status or a thrown error,
both of which are caught and logged rather than propagated. -/
def runAgent (env : Env) (st : RouterState) (group : RegisteredGroup)
    (m : NewMessage) : RouterState × Option String :=
  match env.agent m with
  | AgentBehavior.thrown => (st, none)
  | AgentBehavior.output isError result newSessionId =>
    let st' :=
      if truthy newSessionId then
        { st with sessions := setAssoc st.sessions group.folder (newSessionId.getD "") }
      else st
    if isError then (st', none) else (st', some result)

/-- What `processMessage` did with a message. -/
inductive ProcOutcome
  | notRegistered
  | approvalHandled (requestId : String) (approved : Bool)
  | triggerSkipped
  | agentInvoked (responded : Bool)
  deriving DecidableEq

/-- Whether the outcome includes an agent invocation. -/
def ProcOutcome.invokedAgent : ProcOutcome → Bool
  | ProcOutcome.agentInvoked _ => true
  | _ => false

/-- Embedding of `processMessage` from src/index.ts: registry lookup, approval interception,
trigger check, agent invocation, and `lastAgentTimestamp` advance on a non-null
response. The prompt built from `getMessagesSince` is always a non-empty
string, so the `if (!prompt) return` guard never fires and is omitted;
`setTyping` and `sendMessage` catch their own errors and touch no router
state. -/
def processMessage (env : Env) (st : RouterState) (m : NewMessage) :
    RouterState × ProcOutcome :=
  match lookupAssoc env.registeredGroups m.chat_jid with
  | none => (st, ProcOutcome.notRegistered)
  | some group =>
    let approval := checkApprovalMessage st.pendingRequests (jsTrim m.content) m.chat_jid
    if approval.isApproval then
      ({ st with pendingRequests :=
          (handleApproval st.pendingRequests approval.requestId approval.approved
            m.sender_name (env.applyOutcome approval.requestId)).1 },
        ProcOutcome.approvalHandled approval.requestId approval.approved)
    else if group.trigger ≠ "" ∧ matchesTrigger group.trigger (jsTrim m.content) = false then
      (st, ProcOutcome.triggerSkipped)
    else
      match runAgent env st group m with
      | (st', some _) =>
        ({ st' with lastAgentTimestamp := setAssoc st'.lastAgentTimestamp m.chat_jid m.timestamp },
          ProcOutcome.agentInvoked true)
      | (st', none) => (st', ProcOutcome.agentInvoked false)

/-- One batch of `startMessageLoop`'s inner `for` loop: each message is
processed, then the global watermark `lastTimestamp` advances to its timestamp
and the state is saved; an exception escaping a message's processing
(`storeFails`, modelling a throwing store call — the only uncaught throw site,
since agent errors are caught inside `runAgent`) is caught by the loop, which
breaks out of the batch leaving the watermark where it was. -/
def runBatch (env : Env) (storeFails : NewMessage → Bool) (st : RouterState) :
    List NewMessage → RouterState
  | [] => st
  | m :: rest =>
    if storeFails m then st
    else
      runBatch env storeFails
        { (processMessage env st m).1 with lastTimestamp := m.timestamp } rest

/-! ## Properties of the latest-pending-request scan -/

theorem latestStep_fold_provenance (chat : String) :
    ∀ (l : List HostModificationRequest) (acc : Option HostModificationRequest)
      (req : HostModificationRequest),
      l.foldl (latestStep chat) acc = some req →
      acc = some req ∨
        (req ∈ l ∧ req.chatJid = chat ∧ req.status = HCStatus.pending) := by
  intro l
  induction l with
  | nil =>
    intro acc req h
    exact Or.inl h
  | cons x l ih =>
    intro acc req h
    rw [List.foldl_cons] at h
    rcases ih _ _ h with hstep | hmem
    · unfold latestStep at hstep
      split_ifs at hstep with hq
      · cases acc with
        | none =>
          injection hstep with h'
          subst h'
          exact Or.inr ⟨List.mem_cons_self _ _, hq.1, hq.2⟩
        | some a =>
          dsimp only at hstep
          split_ifs at hstep with hlt
          · injection hstep with h'
            subst h'
            exact Or.inr ⟨List.mem_cons_self _ _, hq.1, hq.2⟩
          · exact Or.inl hstep
      · exact Or.inl hstep
    · exact Or.inr ⟨List.mem_cons_of_mem _ hmem.1, hmem.2⟩

theorem latestStep_fold_mono (chat : String) :
    ∀ (l : List HostModificationRequest) (acc : Option HostModificationRequest)
      (req : HostModificationRequest),
      l.foldl (latestStep chat) acc = some req →
      ∀ a, acc = some a → a.timestamp ≤ req.timestamp := by
  intro l
  induction l with
  | nil =>
    intro acc req h a ha
    rw [ha] at h
    injection h with h'
    subst h'
    exact le_refl _
  | cons x l ih =>
    intro acc req h a ha
    subst ha
    rw [List.foldl_cons] at h
    unfold latestStep at h
    split_ifs at h with hq
    · dsimp only at h
      split_ifs at h with hlt
      · exact le_trans (le_of_lt hlt) (ih _ _ h _ rfl)
      · exact ih _ _ h _ rfl
    · exact ih _ _ h _ rfl

theorem latestStep_fold_dominates (chat : String) :
    ∀ (l : List HostModificationRequest) (acc : Option HostModificationRequest)
      (req : HostModificationRequest),
      l.foldl (latestStep chat) acc = some req →
      ∀ r ∈ l, r.chatJid = chat → r.status = HCStatus.pending →
        r.timestamp ≤ req.timestamp := by
  intro l
  induction l with
  | nil =>
    intro acc req h r hr
    simp at hr
  | cons x l ih =>
    intro acc req h r hr hchat hpend
    rw [List.foldl_cons] at h
    rcases List.mem_cons.mp hr with hr | hr
    · subst hr
      have hq : r.chatJid = chat ∧ r.status = HCStatus.pending := ⟨hchat, hpend⟩
      have hacc : ∀ b, latestStep chat acc r = some b → r.timestamp ≤ b.timestamp := by
        intro b hb
        unfold latestStep at hb
        rw [if_pos hq] at hb
        cases acc with
        | none =>
          injection hb with h'
          subst h'
          exact le_refl _
        | some a =>
          dsimp only at hb
          split_ifs at hb with hlt
          · injection hb with h'
            subst h'
            exact le_refl _
          · injection hb with h'
            subst h'
            exact le_of_not_lt hlt
      cases hstep : latestStep chat acc r with
      | none =>
        rw [hstep] at h
        rcases latestStep_fold_provenance chat l none req h with hc | hm
        · cases hc
        · exfalso
          unfold latestStep at hstep
          rw [if_pos hq] at hstep
          cases acc with
          | none => exact Option.noConfusion hstep
          | some a =>
            dsimp only at hstep
            split_ifs at hstep
      | some b =>
        rw [hstep] at h
        exact le_trans (hacc b hstep) (latestStep_fold_mono chat l _ req h b rfl)
    · exact ih _ _ h r hr hchat hpend

theorem latestPending_spec {reqs : List HostModificationRequest} {chat : String}
    {req : HostModificationRequest} (h : latestPending reqs chat = some req) :
    req ∈ reqs ∧ req.chatJid = chat ∧ req.status = HCStatus.pending ∧
      ∀ r ∈ reqs, r.chatJid = chat → r.status = HCStatus.pending →
        r.timestamp ≤ req.timestamp := by
  unfold latestPending at h
  rcases latestStep_fold_provenance chat reqs none req h with hc | hm
  · cases hc
  · exact ⟨hm.1, hm.2.1, hm.2.2, latestStep_fold_dominates chat reqs none req h⟩

/-! ## C8: one-way approval transitions -/

theorem eq_of_pairwise_ne_ids {l : List HostModificationRequest}
    (h : l.Pairwise (fun a b => a.id ≠ b.id)) :
    ∀ a ∈ l, ∀ b ∈ l, a.id = b.id → a = b := by
  induction l with
  | nil =>
    intro a ha
    simp at ha
  | cons x l ih =>
    rw [List.pairwise_cons] at h
    intro a ha b hb hk
    rcases List.mem_cons.mp ha with ha1 | ha2
    · rcases List.mem_cons.mp hb with hb1 | hb2
      · rw [ha1, hb1]
      · subst ha1
        exact absurd hk (h.1 b hb2)
    · rcases List.mem_cons.mp hb with hb1 | hb2
      · subst hb1
        exact absurd hk.symm (h.1 a ha2)
      · exact ih h.2 a ha2 b hb2 hk

theorem zip_map_self {α : Type} (g : α → α) (l : List α) :
    ∀ p ∈ l.zip (l.map g), p.2 = g p.1 := by
  induction l with
  | nil =>
    intro p hp
    simp at hp
  | cons a l ih =>
    intro p hp
    rw [List.map_cons, List.zip_cons_cons] at hp
    rcases List.mem_cons.mp hp with hp | hp
    · rw [hp]
    · exact ih p hp

theorem mem_zip_self {α : Type} (l : List α) : ∀ p ∈ l.zip l, p.2 = p.1 := by
  induction l with
  | nil =>
    intro p hp
    simp at hp
  | cons a l ih =>
    intro p hp
    rw [List.zip_cons_cons] at hp
    rcases List.mem_cons.mp hp with hp | hp
    · rw [hp]
    · exact ih p hp

/-- C8: `handleApproval` drives a request's status only along the one-way
transitions pending→denied, pending→(approved→)applied and
pending→(approved→)failed, as witnessed by its status-assignment trace; it
never touches any request other than the addressed one, never re-enters
`pending`, and once the addressed request has left `pending` (or is unknown)
the call changes no request state and makes no status assignment at all. -/
theorem C8_handleApproval_one_way
    (reqs : List HostModificationRequest) (requestId : String)
    (approved : Bool) (approvedBy : String) (outcome : ApplyOutcome)
    (huniq : reqs.Pairwise (fun a b => a.id ≠ b.id)) :
    (handleApproval reqs requestId approved approvedBy outcome).1.length = reqs.length ∧
    (∀ p ∈ reqs.zip (handleApproval reqs requestId approved approvedBy outcome).1,
      (p.1.status ≠ HCStatus.pending → p.2 = p.1) ∧
      (p.1.id ≠ requestId → p.2 = p.1) ∧
      (p.2 = p.1 ∨
        (p.1.status = HCStatus.pending ∧
          (p.2.status = HCStatus.denied ∨ p.2.status = HCStatus.applied ∨
            p.2.status = HCStatus.failed)))) ∧
    ((handleApproval reqs requestId approved approvedBy outcome).2 = [] ∨
      (handleApproval reqs requestId approved approvedBy outcome).2 = [HCStatus.denied] ∨
      (handleApproval reqs requestId approved approvedBy outcome).2
        = [HCStatus.approved, HCStatus.applied] ∨
      (handleApproval reqs requestId approved approvedBy outcome).2
        = [HCStatus.approved, HCStatus.failed]) ∧
    ((∀ r ∈ reqs, r.id = requestId → r.status ≠ HCStatus.pending) →
      handleApproval reqs requestId approved approvedBy outcome = (reqs, [])) := by
  unfold handleApproval
  cases hfind : reqs.find? (fun r => r.id == requestId) with
  | none =>
    refine ⟨rfl, ?_, Or.inl rfl, fun _ => rfl⟩
    intro p hp
    have hpp := mem_zip_self reqs p hp
    exact ⟨fun _ => hpp, fun _ => hpp, Or.inl hpp⟩
  | some request =>
    have hreqmem : request ∈ reqs := List.mem_of_find?_eq_some hfind
    have hreqid : request.id = requestId := by
      have := List.find?_some hfind
      simpa using this
    dsimp only
    by_cases hstat : request.status ≠ HCStatus.pending
    · rw [if_pos hstat]
      refine ⟨rfl, ?_, Or.inl rfl, fun _ => rfl⟩
      intro p hp
      have hpp := mem_zip_self reqs p hp
      exact ⟨fun _ => hpp, fun _ => hpp, Or.inl hpp⟩
    · rw [if_neg hstat]
      rw [not_not] at hstat
      have key : ∀ (f : HostModificationRequest → HostModificationRequest),
          (∀ r, (f r).status = HCStatus.denied ∨ (f r).status = HCStatus.applied ∨
            (f r).status = HCStatus.failed) →
          ∀ p ∈ reqs.zip (updateRequest reqs requestId f),
            (p.1.status ≠ HCStatus.pending → p.2 = p.1) ∧
            (p.1.id ≠ requestId → p.2 = p.1) ∧
            (p.2 = p.1 ∨
              (p.1.status = HCStatus.pending ∧
                (p.2.status = HCStatus.denied ∨ p.2.status = HCStatus.applied ∨
                  p.2.status = HCStatus.failed))) := by
        intro f hf p hp
        have hp1 : p.1 ∈ reqs := (List.of_mem_zip hp).1
        simp only [updateRequest] at hp
        have hpp := zip_map_self (fun r => if r.id = requestId then f r else r) reqs p hp
        dsimp only at hpp
        by_cases hid : p.1.id = requestId
        · have hpr : p.1 = request :=
            eq_of_pairwise_ne_ids huniq p.1 hp1 request hreqmem (hid.trans hreqid.symm)
          have hp1pend : p.1.status = HCStatus.pending := by
            rw [hpr]
            exact hstat
          refine ⟨fun hcon => absurd hp1pend hcon, fun hcon => absurd hid hcon, ?_⟩
          refine Or.inr ⟨hp1pend, ?_⟩
          rw [hpp]
          rw [if_pos hid]
          exact hf p.1
        · have hsame : p.2 = p.1 := by
            rw [hpp, if_neg hid]
          exact ⟨fun _ => hsame, fun _ => hsame, Or.inl hsame⟩
      have hmismatch : ¬(∀ r ∈ reqs, r.id = requestId → r.status ≠ HCStatus.pending) := by
        intro hall
        exact hall request hreqmem hreqid hstat
      cases approved with
      | false =>
        rw [if_pos rfl]
        refine ⟨by simp [updateRequest], ?_, Or.inr (Or.inl rfl), ?_⟩
        · exact key _ (fun r => by simp)
        · intro hall
          exact absurd hall hmismatch
      | true =>
        rw [if_neg (by simp)]
        cases outcome with
        | succeeded res =>
          refine ⟨by simp [updateRequest], ?_, Or.inr (Or.inr (Or.inl rfl)), ?_⟩
          · exact key _ (fun r => by simp)
          · intro hall
            exact absurd hall hmismatch
        | errored err =>
          refine ⟨by simp [updateRequest], ?_, Or.inr (Or.inr (Or.inr rfl)), ?_⟩
          · exact key _ (fun r => by simp)
          · intro hall
            exact absurd hall hmismatch

/-- Concrete instantiation of C8: re-approving a request that is already in
state `applied` changes nothing and assigns no status. -/
theorem C8_handleApproval_one_way_witness :
    handleApproval
      [⟨"hc-1", "main", "chat1", "sum", "p", "2025-01-01T00:00:00.000Z",
        HCStatus.applied, none, none⟩]
      "hc-1" true "user" (ApplyOutcome.succeeded "ok")
      = ([⟨"hc-1", "main", "chat1", "sum", "p", "2025-01-01T00:00:00.000Z",
          HCStatus.applied, none, none⟩], []) :=
  (C8_handleApproval_one_way _ "hc-1" true "user" (ApplyOutcome.succeeded "ok")
    (by simp)).2.2.2
    (by
      intro r hr _
      rw [List.mem_singleton] at hr
      subst hr
      decide)

/-! ## Concrete fixtures for instantiations -/

/-- A registered auto-respond group (empty trigger). -/
def gAuto : RegisteredGroup := ⟨"Test Group", "g1", "", "2025-01-01T00:00:00.000Z"⟩

/-- A registered group requiring the trigger `@bot`. -/
def gTrig : RegisteredGroup := ⟨"Trig Group", "g2", "@bot", "2025-01-01T00:00:00.000Z"⟩

/-- Environment whose agent invocation throws. -/
def envThrow : Env :=
  ⟨[("chat1", gAuto)], fun _ => AgentBehavior.thrown,
    fun _ => ApplyOutcome.succeeded "ok"⟩

/-- Environment whose agent invocation succeeds with a reply. -/
def envOk : Env :=
  ⟨[("chat1", gAuto), ("chat2", gTrig)],
    fun _ => AgentBehavior.output false "reply" none,
    fun _ => ApplyOutcome.succeeded "ok"⟩

/-- Fresh router state: empty watermark, no sessions, no pending requests. -/
def st0 : RouterState := ⟨"", [], [], []⟩

def msgHello : NewMessage := ⟨"m1", "chat1", "Ray", "hello", "2025-01-02T03:04:05.000Z"⟩

def msgApprove : NewMessage := ⟨"m2", "chat1", "Ray", "approve", "2025-01-02T03:04:06.000Z"⟩

def msgTrig : NewMessage := ⟨"m3", "chat2", "Ray", "@bot hi", "2025-01-02T03:04:07.000Z"⟩

/-! ## C1: global watermark vs. agent errors -/

/-- C1 counterexample: the agent invocation for `msgHello` throws (the error is
caught inside `runAgent`), yet after the batch the global watermark has
advanced to that message's timestamp, so a `timestamp > watermark` poll will
not re-fetch the errored message. -/
theorem C1_counterexample_watermark_advances :
    envThrow.agent msgHello = AgentBehavior.thrown ∧
    (processMessage envThrow st0 msgHello).2 = ProcOutcome.agentInvoked false ∧
    (runBatch envThrow (fun _ => false) st0 [msgHello]).lastTimestamp
      = "2025-01-02T03:04:05.000Z" := by
  refine ⟨rfl, ?_, ?_⟩ <;> rfl

/-- C1 (amended): the global watermark advances to the timestamp of every
message whose processing completes — including messages whose agent invocation
errored, because those errors are caught inside `runAgent` (it is the
per-group `lastAgentTimestamp` that stays put for them); only an exception
escaping a message's processing stops the batch with the watermark unchanged,
and only such messages are re-fetched next cycle. -/
theorem C1_watermark_decided (env : Env) (storeFails : NewMessage → Bool) :
    (∀ st msgs, (∀ m ∈ msgs, storeFails m = false) →
      (runBatch env storeFails st msgs).lastTimestamp
        = msgs.foldl (fun _ m => m.timestamp) st.lastTimestamp) ∧
    (∀ st (m : NewMessage) rest, storeFails m = true →
      runBatch env storeFails st (m :: rest) = st) ∧
    (∀ st m, (env.agent m = AgentBehavior.thrown ∨
        ∃ r s, env.agent m = AgentBehavior.output true r s) →
      (processMessage env st m).1.lastAgentTimestamp = st.lastAgentTimestamp) := by
  refine ⟨?_, ?_, ?_⟩
  · intro st msgs
    induction msgs generalizing st with
    | nil =>
      intro _
      simp [runBatch]
    | cons m rest ih =>
      intro hok
      have hm : storeFails m = false := hok m (List.mem_cons_self _ _)
      rw [runBatch, if_neg (by simp [hm])]
      rw [ih _ (fun x hx => hok x (List.mem_cons_of_mem _ hx))]
      rfl
  · intro st m rest h
    simp [runBatch, h]
  · intro st m hagent
    unfold processMessage
    cases hlook : lookupAssoc env.registeredGroups m.chat_jid with
    | none => rfl
    | some group =>
      dsimp only
      split_ifs with happr
      · rfl
      · rfl
      · unfold runAgent
        rcases hagent with hthrown | ⟨r, s, herr⟩
        · rw [hthrown]
        · rw [herr]
          dsimp only
          rw [if_pos rfl]
          split_ifs <;> rfl

/-- Concrete instantiation of the amended C1 theorem: an exception escaping
processing stops the batch with the state unchanged. -/
theorem C1_watermark_decided_witness :
    runBatch envOk (fun _ => true) st0 [msgHello] = st0 :=
  (C1_watermark_decided envOk (fun _ => true)).2.1 st0 msgHello [] rfl

/-! ## C4: trigger eligibility -/

/-- C4: a message for a registered group that is not recognized as an approval
message invokes the agent iff the group's trigger is empty or the trimmed
message body matches the trigger as a case-insensitive word-boundary prefix
(`^trigger\b`, `i` flag); a message failing a non-empty trigger is skipped
with no agent invocation and no state change. -/
theorem C4_trigger_eligibility (env : Env) (st : RouterState) (m : NewMessage)
    (group : RegisteredGroup)
    (hreg : lookupAssoc env.registeredGroups m.chat_jid = some group)
    (hnapp : (checkApprovalMessage st.pendingRequests (jsTrim m.content)
        m.chat_jid).isApproval = false) :
    ((processMessage env st m).2.invokedAgent = true ↔
      (group.trigger = "" ∨ matchesTrigger group.trigger (jsTrim m.content) = true)) ∧
    (group.trigger ≠ "" → matchesTrigger group.trigger (jsTrim m.content) = false →
      processMessage env st m = (st, ProcOutcome.triggerSkipped)) := by
  unfold processMessage
  rw [hreg]
  dsimp only
  rw [if_neg (by simp [hnapp])]
  constructor
  · by_cases htrig : group.trigger = ""
    · rw [if_neg (by simp [htrig])]
      cases hra : runAgent env st group m with
      | mk st' resp =>
        cases resp <;> simp [ProcOutcome.invokedAgent, htrig]
    · by_cases hmatch : matchesTrigger group.trigger (jsTrim m.content) = true
      · rw [if_neg (by simp [hmatch])]
        cases hra : runAgent env st group m with
        | mk st' resp =>
          cases resp <;> simp [ProcOutcome.invokedAgent, hmatch]
      · rw [if_pos ⟨htrig, by simpa using hmatch⟩]
        simp [ProcOutcome.invokedAgent, htrig, hmatch]
  · intro htrig hmatch
    rw [if_pos ⟨htrig, hmatch⟩]

/-- Concrete instantiation of C4: `@bot hi` in a group with trigger `@bot`
invokes the agent. -/
theorem C4_trigger_eligibility_witness :
    (processMessage envOk st0 msgTrig).2.invokedAgent = true :=
  (C4_trigger_eligibility envOk st0 msgTrig gTrig rfl rfl).1.mpr (Or.inr rfl)

/-! ## C5: approval interception and resolution -/

/-- C5 counterexample: with no pending request, a bare `approve` in an
auto-respond group is not a no-op — it is not recognized as an approval, falls
through to the trigger check, and invokes the agent. -/
theorem C5_counterexample_no_pending_not_noop :
    latestPending st0.pendingRequests "chat1" = none ∧
    (checkApprovalMessage st0.pendingRequests (jsTrim msgApprove.content)
      "chat1").isApproval = false ∧
    (processMessage envOk st0 msgApprove).2 = ProcOutcome.agentInvoked true :=
  ⟨rfl, rfl, rfl⟩

/-- C5 (amended): messages recognized by `checkApprovalMessage` are intercepted
before the trigger check and routed to the approval machinery; an unqualified
approve/deny resolves to the pending request with the maximum timestamp for
that chat; but when no pending request exists for the chat, an unqualified
approve/deny is NOT treated as an approval — it falls through to ordinary
trigger processing and may invoke the agent — while an approve/deny qualified
with an explicit unknown request id is handled as an approval whose resolution
changes no request state. -/
theorem C5_approval_resolution (env : Env) (st : RouterState) (m : NewMessage)
    (group : RegisteredGroup) :
    (lookupAssoc env.registeredGroups m.chat_jid = some group →
      (checkApprovalMessage st.pendingRequests (jsTrim m.content)
        m.chat_jid).isApproval = true →
      (processMessage env st m).2 = ProcOutcome.approvalHandled
        (checkApprovalMessage st.pendingRequests (jsTrim m.content) m.chat_jid).requestId
        (checkApprovalMessage st.pendingRequests (jsTrim m.content) m.chat_jid).approved) ∧
    (∀ (reqs : List HostModificationRequest) (content chat : String) (app : Bool),
      parseApprovalKeyword content.toList = some (app, none) →
      (∀ req, latestPending reqs chat = some req →
        checkApprovalMessage reqs content chat = ⟨true, req.id, app⟩ ∧
        req ∈ reqs ∧ req.chatJid = chat ∧ req.status = HCStatus.pending ∧
        ∀ r ∈ reqs, r.chatJid = chat → r.status = HCStatus.pending →
          r.timestamp ≤ req.timestamp) ∧
      (latestPending reqs chat = none →
        (checkApprovalMessage reqs content chat).isApproval = false)) ∧
    (∀ (reqs : List HostModificationRequest) (rid approver : String) (a : Bool)
        (o : ApplyOutcome),
      reqs.find? (fun r => r.id == rid) = none →
      handleApproval reqs rid a approver o = (reqs, [])) := by
  refine ⟨?_, ?_, ?_⟩
  · intro hreg happ
    unfold processMessage
    rw [hreg]
    dsimp only
    rw [if_pos (by simp [happ])]
  · intro reqs content chat app hparse
    constructor
    · intro req hl
      rcases latestPending_spec hl with ⟨hmem, hchat, hpend, hdom⟩
      refine ⟨?_, hmem, hchat, hpend, hdom⟩
      unfold checkApprovalMessage
      rw [hparse]
      dsimp only
      rw [hl]
    · intro hnone
      unfold checkApprovalMessage
      rw [hparse]
      dsimp only
      rw [hnone]
  · intro reqs rid approver a o hfindnone
    unfold handleApproval
    rw [hfindnone]

/-- Concrete instantiation of the amended C5 theorem: a bare `approve` resolves
to the single pending request for the chat. -/
theorem C5_approval_resolution_witness :
    checkApprovalMessage
      [⟨"hc-7", "g1", "chat1", "s", "p", "2025-01-03T00:00:00.000Z",
        HCStatus.pending, none, none⟩]
      "approve" "chat1" = ⟨true, "hc-7", true⟩ :=
  (((C5_approval_resolution envOk st0 msgApprove gAuto).2.1
      [⟨"hc-7", "g1", "chat1", "s", "p", "2025-01-03T00:00:00.000Z",
        HCStatus.pending, none, none⟩]
      "approve" "chat1" true rfl).1
    ⟨"hc-7", "g1", "chat1", "s", "p", "2025-01-03T00:00:00.000Z",
      HCStatus.pending, none, none⟩ rfl).1

/-! ## Email channel (startEmailLoop in src/index.ts, src/email-channel.ts) -/

/-- Embedding of `EmailMessage` from src/email-channel.ts (the source field `from` is a Lean
keyword and appears here as `fromAddr`). -/
structure EmailMessage where
  id : String
  threadId : String
  fromAddr : String
  subject : String
  body : String
  date : String
  deriving DecidableEq

/-- Modelled from the spec: the `ProcessedEmailRecord` store of db.ts (db.ts is
not under src/; only its exported names are visible): records
`{ id, threadId, sender, subject, processedAt, responded(bool) }` with
"exactly-once email reply per message id … dedup is by id". -/
structure ProcessedEmailRecord where
  id : String
  threadId : String
  sender : String
  subject : String
  responded : Bool
  deriving DecidableEq

/-- Modelled from the spec: `isEmailProcessed` — dedup is by id. -/
def isEmailProcessed (recs : List ProcessedEmailRecord) (id : String) : Bool :=
  recs.any (fun r => r.id == id)

/-- Modelled from the spec: `markEmailProcessed` records the email as
processed, not yet responded. -/
def markEmailProcessed (recs : List ProcessedEmailRecord) (e : EmailMessage) :
    List ProcessedEmailRecord :=
  recs ++ [⟨e.id, e.threadId, e.fromAddr, e.subject, false⟩]

/-- Modelled from the spec: `markEmailResponded` sets `responded` for the id. -/
def markEmailResponded (recs : List ProcessedEmailRecord) (id : String) :
    List ProcessedEmailRecord :=
  recs.map (fun r => if r.id = id then { r with responded := true } else r)

/-- The email channel's external collaborators: the agent (`none` models an
error status or a thrown error, both caught inside `runEmailAgent`) and
whether the Gmail MCP `send_email` call fails for a given email id. -/
structure EmailEnv where
  agent : EmailMessage → Option String
  sendFails : String → Bool

/-- Embedding of `sendEmailReply` from src/email-channel.ts: attempts the MCP `send_email`
call and catches any failure (logging it), so the caller always observes a
normal return; the returned flag (whether the send succeeded) is visible only
in the log. -/
def sendEmailReply (env : EmailEnv) (id : String) : Bool :=
  !env.sendFails id

/-- A reply-send attempt: the email id and whether the send succeeded. -/
structure SendAttempt where
  id : String
  ok : Bool
  deriving DecidableEq

/-- One email of `startEmailLoop`'s body: skip when the id is already
processed; else mark processed, run the agent, and on a non-null response
attempt the reply (send failures are swallowed inside `sendEmailReply`) and
mark the id responded. Returns the updated store and the send attempts made. -/
def processOneEmail (env : EmailEnv) (recs : List ProcessedEmailRecord)
    (e : EmailMessage) : List ProcessedEmailRecord × List SendAttempt :=
  if isEmailProcessed recs e.id then (recs, [])
  else
    match env.agent e with
    | none => (markEmailProcessed recs e, [])
    | some _ =>
      (markEmailResponded (markEmailProcessed recs e) e.id,
        [⟨e.id, sendEmailReply env e.id⟩])

/-- One full poll of `startEmailLoop` over the fetched batch, in order. -/
def emailPoll (env : EmailEnv) (recs : List ProcessedEmailRecord) :
    List EmailMessage → List ProcessedEmailRecord × List SendAttempt
  | [] => (recs, [])
  | e :: rest =>
    let r := processOneEmail env recs e
    let later := emailPoll env r.1 rest
    (later.1, r.2 ++ later.2)

/-! ## IPC command bus (startIpcWatcher / processTaskIpc in src/index.ts) -/

/-- Embedding of `Task` from src/types.ts. -/
structure Task where
  id : String
  group_folder : String
  chat_jid : String
  prompt : String
  schedule_type : String
  schedule_value : String
  context_mode : String
  next_run : Option String
  status : String
  created_at : String
  deriving DecidableEq

/-- The duck-typed IPC task-command payload: the fields `processTaskIpc` reads,
with `none` for a missing JSON field. -/
structure TaskIpcData where
  type : String
  taskId : Option String
  prompt : Option String
  schedule_type : Option String
  schedule_value : Option String
  context_mode : Option String
  groupFolder : Option String
  chatJid : Option String
  jid : Option String
  name : Option String
  folder : Option String
  trigger : Option String
  userId : Option String
  text : Option String
  deriving DecidableEq

/-- Decimal value of a digit string. -/
def digitsToNat (ds : List Char) : Nat :=
  ds.foldl (fun a c => a * 10 + (c.toNat - '0'.toNat)) 0

/-- JS `parseInt(s, 10)`: skip leading whitespace, optional sign, leading
digits, trailing junk ignored; `NaN` (`none`) when no digit is found. -/
def parseIntJs (s : String) : Option Int :=
  match s.toList.dropWhile isWS with
  | '-' :: r =>
    if (r.takeWhile Char.isDigit).length = 0 then none
    else some (-(digitsToNat (r.takeWhile Char.isDigit) : Int))
  | '+' :: r =>
    if (r.takeWhile Char.isDigit).length = 0 then none
    else some ((digitsToNat (r.takeWhile Char.isDigit) : Int))
  | r =>
    if (r.takeWhile Char.isDigit).length = 0 then none
    else some ((digitsToNat (r.takeWhile Char.isDigit) : Int))

/-- Host state touched by the IPC task commands. -/
structure IpcState where
  tasks : List Task
  registeredGroups : List (String × RegisteredGroup)
  deriving DecidableEq

inductive LogLevel
  | info
  | warn
  deriving DecidableEq

/-- External oracles of `processTaskIpc`: the cron library
(`CronExpressionParser.parse(v).next()`, `none` for a parse throw), JS `Date`
parsing (`none` for `NaN`), `toISOString`, the clock, and the generated
task id. -/
structure IpcEnv where
  cronNext : String → Option String
  parseDateMs : String → Option Int
  isoOfMs : Int → String
  nowMs : Int
  nowIso : String
  freshTaskId : String

/-- Generic association-list assignment, modelling `record[key] = v`. -/
def setAssocG {α : Type} (l : List (String × α)) (k : String) (v : α) :
    List (String × α) :=
  if l.any (fun p => p.1 == k) then l.map (fun p => if p.1 == k then (k, v) else p)
  else l ++ [(k, v)]

/-- The `nextRun` computation of `schedule_task`: `none` models the `break` on
an invalid schedule expression; `some none` is the unrecognized-type fall
through, which leaves `nextRun` null but still creates the task, exactly as
the source's if/else-if chain does. -/
def nextRunOpt (env : IpcEnv) (data : TaskIpcData) : Option (Option String) :=
  if data.schedule_type.getD "" = "cron" then
    (env.cronNext (data.schedule_value.getD "")).map some
  else if data.schedule_type.getD "" = "interval" then
    match parseIntJs (data.schedule_value.getD "") with
    | none => none
    | some ms =>
      if ms ≤ 0 then none
      else some (some (env.isoOfMs (env.nowMs + ms)))
  else if data.schedule_type.getD "" = "once" then
    (env.parseDateMs (data.schedule_value.getD "")).map
      (fun ms => some (env.isoOfMs ms))
  else some none

/-- The `schedule_task` branch of `processTaskIpc`: field-presence check (JS
truthiness), source authorization, target-jid resolution from the registry
(the payload's `chatJid` field is never consulted), schedule validation, and
task construction. Returns the task to create, if any. -/
def scheduleTask (env : IpcEnv) (st : IpcState) (data : TaskIpcData)
    (sourceGroup : String) (isMain : Bool) : Option Task :=
  if truthy data.prompt && truthy data.schedule_type && truthy data.schedule_value
      && truthy data.groupFolder then
    if !isMain && data.groupFolder.getD "" != sourceGroup then none
    else
      match (st.registeredGroups.find?
          (fun p => p.2.folder == data.groupFolder.getD "")).map Prod.fst with
      | none => none
      | some targetJid =>
        (nextRunOpt env data).map (fun nr =>
          { id := env.freshTaskId
            group_folder := data.groupFolder.getD ""
            chat_jid := targetJid
            prompt := data.prompt.getD ""
            schedule_type := data.schedule_type.getD ""
            schedule_value := data.schedule_value.getD ""
            context_mode :=
              if data.context_mode = some "group" ∨ data.context_mode = some "isolated"
              then data.context_mode.getD "" else "isolated"
            next_run := nr
            status := "active"
            created_at := env.nowIso })
  else none

/-- Embedding of `processTaskIpc` from src/index.ts over the task store and group registry:
`createTask`/`updateTask`/`deleteTask`/`getTaskById` are the corresponding
list operations, `registerGroup` persists into the registry. `refresh_groups`
and `discord_dm` touch neither tasks nor the registry. The log output models
the `logger.info`/`logger.warn` calls of the task-mutation, registration and
unknown-type branches (the ones the verified claims speak about); the
`schedule_task` branch's logging is not modelled. -/
def processTaskIpc (env : IpcEnv) (st : IpcState) (data : TaskIpcData)
    (sourceGroup : String) (isMain : Bool) : IpcState × List LogLevel :=
  if data.type = "schedule_task" then
    match scheduleTask env st data sourceGroup isMain with
    | some t => ({ st with tasks := st.tasks ++ [t] }, [LogLevel.info])
    | none => (st, [])
  else if data.type = "pause_task" then
    if truthy data.taskId then
      match st.tasks.find? (fun t => t.id == data.taskId.getD "") with
      | some task =>
        if isMain || task.group_folder == sourceGroup then
          ({ st with tasks := st.tasks.map (fun t =>
              if t.id = data.taskId.getD "" then { t with status := "paused" } else t) },
            [LogLevel.info])
        else (st, [LogLevel.warn])
      | none => (st, [LogLevel.warn])
    else (st, [])
  else if data.type = "resume_task" then
    if truthy data.taskId then
      match st.tasks.find? (fun t => t.id == data.taskId.getD "") with
      | some task =>
        if isMain || task.group_folder == sourceGroup then
          ({ st with tasks := st.tasks.map (fun t =>
              if t.id = data.taskId.getD "" then { t with status := "active" } else t) },
            [LogLevel.info])
        else (st, [LogLevel.warn])
      | none => (st, [LogLevel.warn])
    else (st, [])
  else if data.type = "cancel_task" then
    if truthy data.taskId then
      match st.tasks.find? (fun t => t.id == data.taskId.getD "") with
      | some task =>
        if isMain || task.group_folder == sourceGroup then
          ({ st with tasks := st.tasks.filter (fun t => !(t.id == data.taskId.getD "")) },
            [LogLevel.info])
        else (st, [LogLevel.warn])
      | none => (st, [LogLevel.warn])
    else (st, [])
  else if data.type = "refresh_groups" then
    if isMain then (st, [LogLevel.info]) else (st, [LogLevel.warn])
  else if data.type = "register_group" then
    if !isMain then (st, [LogLevel.warn])
    else if truthy data.jid && truthy data.name && truthy data.folder
        && truthy data.trigger then
      ({ st with registeredGroups :=
          (setAssocG st.registeredGroups (data.jid.getD "")
            ⟨data.name.getD "", data.folder.getD "", data.trigger.getD "", env.nowIso⟩) },
        [LogLevel.info])
    else (st, [LogLevel.warn])
  else if data.type = "discord_dm" then
    if !isMain then (st, [LogLevel.warn])
    else if truthy data.userId && truthy data.text then (st, [LogLevel.info])
    else (st, [LogLevel.warn])
  else (st, [LogLevel.warn])

/-- What the IPC watcher does with a mailbox file after processing it. -/
inductive FileAction
  | deleted
  | quarantined (name : String)
  deriving DecidableEq

/-- The fields read from a `messages/` IPC envelope. -/
structure MsgIpcData where
  type : String
  chatJid : Option String
  text : Option String
  deriving DecidableEq

/-- Observable channel effect of a `messages/` envelope. -/
inductive MsgEffect
  | sent (chatJid : String)
  | typing (chatJid : String)
  deriving DecidableEq

/-- One file of the `messages/` scan in `startIpcWatcher`; `parsed = none`
models a `JSON.parse` throw (malformed envelope). A malformed file is renamed
into `errors/` under a source-group-prefixed name; every successfully parsed
file — including one whose send is blocked by authorization — is deleted after
processing (`sendMessage` and the typing helpers swallow their own errors, so
nothing later in the handler throws). -/
def processMessageFile (registeredGroups : List (String × RegisteredGroup))
    (parsed : Option MsgIpcData) (sourceGroup fileName : String) (isMain : Bool) :
    List MsgEffect × List LogLevel × FileAction :=
  match parsed with
  | none => ([], [], FileAction.quarantined (sourceGroup ++ "-" ++ fileName))
  | some data =>
    if data.type = "message" ∧ truthy data.chatJid = true ∧ truthy data.text = true then
      if isMain || (match lookupAssoc registeredGroups (data.chatJid.getD "") with
          | some tg => tg.folder == sourceGroup
          | none => false) then
        ([MsgEffect.sent (data.chatJid.getD "")], [LogLevel.info], FileAction.deleted)
      else ([], [LogLevel.warn], FileAction.deleted)
    else if data.type = "typing_indicator" ∧ truthy data.chatJid = true then
      ([MsgEffect.typing (data.chatJid.getD "")], [LogLevel.info], FileAction.deleted)
    else ([], [], FileAction.deleted)

/-- One file of the `tasks/` scan in `startIpcWatcher`: a malformed file
(`JSON.parse` throw) is quarantined under a source-group-prefixed name; a
parsed one is handed to `processTaskIpc` and then deleted. -/
def processTaskFile (env : IpcEnv) (st : IpcState) (parsed : Option TaskIpcData)
    (sourceGroup fileName : String) (isMain : Bool) :
    IpcState × List LogLevel × FileAction :=
  match parsed with
  | none => (st, [], FileAction.quarantined (sourceGroup ++ "-" ++ fileName))
  | some data =>
    ((processTaskIpc env st data sourceGroup isMain).1,
      (processTaskIpc env st data sourceGroup isMain).2, FileAction.deleted)

/-! ## C2: email reply dedup -/

theorem isEmailProcessed_markResponded (recs : List ProcessedEmailRecord)
    (i id : String) :
    isEmailProcessed (markEmailResponded recs i) id = isEmailProcessed recs id := by
  unfold isEmailProcessed markEmailResponded
  rw [List.any_map]
  congr 1
  funext r
  dsimp only [Function.comp]
  split_ifs <;> rfl

theorem isEmailProcessed_markProcessed (recs : List ProcessedEmailRecord)
    (e : EmailMessage) (id : String)
    (h : isEmailProcessed recs id = true ∨ id = e.id) :
    isEmailProcessed (markEmailProcessed recs e) id = true := by
  unfold isEmailProcessed markEmailProcessed
  rw [List.any_append]
  rcases h with h | h
  · unfold isEmailProcessed at h
    rw [h]
    rfl
  · simp [h]

theorem isEmailProcessed_mono (env : EmailEnv) (recs : List ProcessedEmailRecord)
    (e : EmailMessage) (id : String) (h : isEmailProcessed recs id = true) :
    isEmailProcessed (processOneEmail env recs e).1 id = true := by
  unfold processOneEmail
  split_ifs with hp
  · exact h
  · cases henv : env.agent e with
    | none =>
      exact isEmailProcessed_markProcessed recs e id (Or.inl h)
    | some r =>
      dsimp only
      rw [isEmailProcessed_markResponded]
      exact isEmailProcessed_markProcessed recs e id (Or.inl h)

theorem processOneEmail_attempts (env : EmailEnv) (recs : List ProcessedEmailRecord)
    (e : EmailMessage) :
    (processOneEmail env recs e).2 = [] ∨
      ((processOneEmail env recs e).2 = [⟨e.id, sendEmailReply env e.id⟩] ∧
        isEmailProcessed (processOneEmail env recs e).1 e.id = true) := by
  unfold processOneEmail
  split_ifs with hp
  · exact Or.inl rfl
  · cases henv : env.agent e with
    | none => exact Or.inl rfl
    | some r =>
      refine Or.inr ⟨rfl, ?_⟩
      dsimp only
      rw [isEmailProcessed_markResponded]
      exact isEmailProcessed_markProcessed recs e e.id (Or.inr rfl)

theorem emailPoll_no_attempt_for_processed (env : EmailEnv) :
    ∀ (emails : List EmailMessage) (recs : List ProcessedEmailRecord) (id : String),
      isEmailProcessed recs id = true →
      ∀ a ∈ (emailPoll env recs emails).2, a.id ≠ id := by
  intro emails
  induction emails with
  | nil =>
    intro recs id h a ha
    simp [emailPoll] at ha
  | cons e rest ih =>
    intro recs id h a ha
    rw [emailPoll] at ha
    dsimp only at ha
    rw [List.mem_append] at ha
    rcases ha with ha | ha
    · unfold processOneEmail at ha
      split_ifs at ha with hp
      · simp at ha
      · cases henv : env.agent e with
        | none =>
          rw [henv] at ha
          simp at ha
        | some r =>
          rw [henv] at ha
          dsimp only at ha
          rw [List.mem_singleton] at ha
          subst ha
          intro hcon
          dsimp only at hcon
          rw [hcon] at hp
          exact hp h
    · exact ih _ id (isEmailProcessed_mono env recs e id h) a ha

theorem emailPoll_attempts_dedup (env : EmailEnv) :
    ∀ (emails : List EmailMessage) (recs : List ProcessedEmailRecord) (id : String),
      ((emailPoll env recs emails).2.filter (fun a => a.id == id)).length ≤ 1 := by
  intro emails
  induction emails with
  | nil =>
    intro recs id
    simp [emailPoll]
  | cons e rest ih =>
    intro recs id
    rw [emailPoll]
    dsimp only
    rw [List.filter_append, List.length_append]
    rcases processOneEmail_attempts env recs e with hatt | ⟨hatt, hself⟩
    · rw [hatt]
      simpa using ih _ id
    · rw [hatt]
      by_cases hid : e.id = id
      · have hproc : isEmailProcessed (processOneEmail env recs e).1 id = true :=
          hid ▸ hself
        have h0 : ((emailPoll env (processOneEmail env recs e).1 rest).2.filter
            (fun a => a.id == id)) = [] := by
          rw [List.filter_eq_nil_iff]
          intro a ha
          simpa using emailPoll_no_attempt_for_processed env rest _ id hproc a ha
        rw [h0]
        simp [hid]
      · have hnil : (([⟨e.id, sendEmailReply env e.id⟩] : List SendAttempt).filter
            (fun a => a.id == id)) = [] := by
          simp [hid]
        rw [hnil]
        simpa using ih _ id

/-- C2 (amended): when the agent run succeeds the record is marked
`responded = true` regardless of whether the reply send failed — the failure
is caught inside `sendEmailReply` and never reaches the caller — and the next
poll skips the id entirely (no re-attempt): an id already in the store is
skipped with no state change and no send attempt, so at most one reply send
attempt is ever made per message id. -/
theorem C2_email_reply_once (env : EmailEnv) :
    (∀ recs (e : EmailMessage) r, isEmailProcessed recs e.id = false →
      env.agent e = some r →
      (∃ rec ∈ (processOneEmail env recs e).1, rec.id = e.id ∧ rec.responded = true) ∧
      (processOneEmail env recs e).2 = [⟨e.id, !env.sendFails e.id⟩]) ∧
    (∀ recs (e : EmailMessage), isEmailProcessed recs e.id = true →
      processOneEmail env recs e = (recs, [])) ∧
    (∀ emails recs id, isEmailProcessed recs id = true →
      ∀ a ∈ (emailPoll env recs emails).2, a.id ≠ id) ∧
    (∀ emails recs id,
      ((emailPoll env recs emails).2.filter (fun a => a.id == id)).length ≤ 1) := by
  refine ⟨?_, ?_, emailPoll_no_attempt_for_processed env,
    emailPoll_attempts_dedup env⟩
  · intro recs e r hp hagent
    constructor
    · unfold processOneEmail
      rw [if_neg (by simp [hp]), hagent]
      dsimp only
      refine ⟨⟨e.id, e.threadId, e.fromAddr, e.subject, true⟩, ?_, rfl, rfl⟩
      unfold markEmailResponded markEmailProcessed
      rw [List.map_append]
      apply List.mem_append_right
      simp
    · unfold processOneEmail
      rw [if_neg (by simp [hp]), hagent]
      rfl
  · intro recs e hpr
    unfold processOneEmail
    rw [if_pos (by simp [hpr])]

/-- Concrete email fixture: the agent replies and the MCP send always fails. -/
def emailEnvSendFail : EmailEnv := ⟨fun _ => some "reply", fun _ => true⟩

def emailM1 : EmailMessage := ⟨"m1", "t1", "alice@example.com", "Hi", "body", "2025-01-02"⟩

/-- C2 counterexample: the agent run for `"m1"` succeeds and the reply send
fails, yet the record ends with `responded = true` (the send failure is
swallowed inside `sendEmailReply` before `markEmailResponded` runs), and the
next poll skips `"m1"` entirely instead of re-attempting the reply. -/
theorem C2_counterexample_responded_true_no_retry :
    emailEnvSendFail.sendFails "m1" = true ∧
    processOneEmail emailEnvSendFail [] emailM1
      = ([⟨"m1", "t1", "alice@example.com", "Hi", true⟩], [⟨"m1", false⟩]) ∧
    processOneEmail emailEnvSendFail
      [⟨"m1", "t1", "alice@example.com", "Hi", true⟩] emailM1
      = ([⟨"m1", "t1", "alice@example.com", "Hi", true⟩], []) :=
  ⟨rfl, rfl, rfl⟩

/-- Concrete instantiation of the amended C2 theorem: after a successful agent
run with a failing send, the store holds a record for the id with
`responded = true`. -/
theorem C2_email_reply_once_witness :
    ∃ rec ∈ (processOneEmail emailEnvSendFail [] emailM1).1,
      rec.id = emailM1.id ∧ rec.responded = true :=
  ((C2_email_reply_once emailEnvSendFail).1 [] emailM1 "reply" rfl rfl).1

/-! ## C3: schedule_task authorization and jid resolution -/

theorem scheduleTask_unauthorized (env : IpcEnv) (st : IpcState)
    (data : TaskIpcData) (sourceGroup : String)
    (hgf : data.groupFolder ≠ some sourceGroup) :
    scheduleTask env st data sourceGroup false = none := by
  unfold scheduleTask
  by_cases hfields : (truthy data.prompt && truthy data.schedule_type &&
      truthy data.schedule_value && truthy data.groupFolder) = true
  · rw [if_pos hfields]
    have hgf' : truthy data.groupFolder = true := by
      repeat rw [Bool.and_eq_true] at hfields
      exact hfields.2
    have hcond : (!false && data.groupFolder.getD "" != sourceGroup) = true := by
      cases hgfv : data.groupFolder with
      | none =>
        rw [hgfv] at hgf'
        exact absurd hgf' (by decide)
      | some g =>
        have hne : g ≠ sourceGroup := by
          intro hcon
          exact hgf (by rw [hgfv, hcon])
        simp [hne]
    rw [if_pos hcond]
  · rw [if_neg hfields]

/-- C3: a `schedule_task` from a non-privileged source whose payload
`groupFolder` differs from the source directory is rejected and creates no
task (the state and log are untouched); any accepted `schedule_task` produces
a task whose `chat_jid` is the registry lookup for the target folder — the
payload's `chatJid` field is never consulted. -/
theorem C3_schedule_task_authorization (env : IpcEnv) (st : IpcState)
    (data : TaskIpcData) (sourceGroup : String) :
    (data.groupFolder ≠ some sourceGroup →
      scheduleTask env st data sourceGroup false = none) ∧
    (∀ isMain t, scheduleTask env st data sourceGroup isMain = some t →
      (st.registeredGroups.find? (fun p => p.2.folder == t.group_folder)).map Prod.fst
        = some t.chat_jid ∧
      t.group_folder = data.groupFolder.getD "") ∧
    (data.type = "schedule_task" → data.groupFolder ≠ some sourceGroup →
      processTaskIpc env st data sourceGroup false = (st, [])) := by
  refine ⟨scheduleTask_unauthorized env st data sourceGroup, ?_, ?_⟩
  · intro isMain t h
    unfold scheduleTask at h
    by_cases hfields : (truthy data.prompt && truthy data.schedule_type &&
        truthy data.schedule_value && truthy data.groupFolder) = true
    · rw [if_pos hfields] at h
      by_cases hauth : (!isMain && data.groupFolder.getD "" != sourceGroup) = true
      · rw [if_pos hauth] at h
        cases h
      · rw [if_neg hauth] at h
        cases hfind : (st.registeredGroups.find?
            (fun p => p.2.folder == data.groupFolder.getD "")).map Prod.fst with
        | none =>
          rw [hfind] at h
          cases h
        | some targetJid =>
          rw [hfind] at h
          rw [Option.map_eq_some'] at h
          rcases h with ⟨nr, hnr, hmk⟩
          subst hmk
          exact ⟨hfind, rfl⟩
    · rw [if_neg hfields] at h
      cases h
  · intro htype hgf
    unfold processTaskIpc
    rw [if_pos htype, scheduleTask_unauthorized env st data sourceGroup hgf]

/-- Oracles for concrete IPC instantiations. -/
def ipcEnv0 : IpcEnv :=
  ⟨fun _ => some "2025-06-01T00:00:00.000Z", fun _ => some 1000,
    fun _ => "2025-06-01T00:00:00.000Z", 0, "2025-05-01T00:00:00.000Z", "task-1"⟩

def ipcSt0 : IpcState :=
  ⟨[], [("jid-target", ⟨"GT", "gT", "@t", "2025-01-01T00:00:00.000Z"⟩)]⟩

def schedData : TaskIpcData :=
  ⟨"schedule_task", none, some "do it", some "cron", some "0 0 * * *", none,
    some "gT", some "spoofed-jid", none, none, none, none, none, none⟩

/-- Concrete instantiation of C3: non-privileged `gX` cannot schedule into
`gT`, and a task accepted from the privileged caller carries the
registry-resolved jid for the target folder, not the payload's spoofed
`chatJid`. -/
theorem C3_schedule_task_authorization_witness :
    scheduleTask ipcEnv0 ipcSt0 schedData "gX" false = none ∧
    (ipcSt0.registeredGroups.find?
        (fun p => p.2.folder ==
          (⟨"task-1", "gT", "jid-target", "do it", "cron", "0 0 * * *", "isolated",
            some "2025-06-01T00:00:00.000Z", "active",
            "2025-05-01T00:00:00.000Z"⟩ : Task).group_folder)).map Prod.fst
      = some (⟨"task-1", "gT", "jid-target", "do it", "cron", "0 0 * * *", "isolated",
          some "2025-06-01T00:00:00.000Z", "active",
          "2025-05-01T00:00:00.000Z"⟩ : Task).chat_jid :=
  ⟨(C3_schedule_task_authorization ipcEnv0 ipcSt0 schedData "gX").1 (by decide),
    ((C3_schedule_task_authorization ipcEnv0 ipcSt0 schedData "gX").2.1 true
      ⟨"task-1", "gT", "jid-target", "do it", "cron", "0 0 * * *", "isolated",
        some "2025-06-01T00:00:00.000Z", "active", "2025-05-01T00:00:00.000Z"⟩
      (by decide)).1⟩

/-! ## C6: quarantine of malformed envelopes -/

/-- C6 counterexample: a well-formed but unauthorized message envelope is
deleted after a warning — not moved to the `errors/` quarantine. -/
theorem C6_counterexample_unauthorized_deleted :
    processMessageFile [("jid-3", ⟨"G3", "g3", "", "2025-01-01T00:00:00.000Z"⟩)]
      (some ⟨"message", some "jid-3", some "hello"⟩) "g2" "f.json" false
      = ([], [LogLevel.warn], FileAction.deleted) := by
  decide

/-- C6 (amended): an envelope whose processing throws (malformed JSON) is moved
to the `errors/` quarantine under a name prefixed by the source group —
preserved, not deleted; every successfully parsed envelope, authorized or
unauthorized alike, is deleted after processing. This holds for both the
`messages/` and the `tasks/` mailboxes. -/
theorem C6_quarantine_malformed (registeredGroups : List (String × RegisteredGroup))
    (env : IpcEnv) (st : IpcState) (sourceGroup fileName : String) (isMain : Bool) :
    (processMessageFile registeredGroups none sourceGroup fileName isMain
      = ([], [], FileAction.quarantined (sourceGroup ++ "-" ++ fileName))) ∧
    (∀ d, (processMessageFile registeredGroups (some d) sourceGroup fileName isMain).2.2
      = FileAction.deleted) ∧
    (processTaskFile env st none sourceGroup fileName isMain
      = (st, [], FileAction.quarantined (sourceGroup ++ "-" ++ fileName))) ∧
    (∀ d, (processTaskFile env st (some d) sourceGroup fileName isMain).2.2
      = FileAction.deleted) := by
  refine ⟨rfl, ?_, rfl, fun d => rfl⟩
  intro d
  unfold processMessageFile
  dsimp only
  split_ifs <;> rfl

/-! ## C7: unauthorized task commands are pure no-ops -/

/-- C7: an unauthorized `pause_task` / `resume_task` / `cancel_task` — a
non-privileged source naming an existing task of another group — leaves the
whole state (every task, every field) unchanged, logs exactly one warning, and
the envelope file is still deleted rather than quarantined: the handler
returns normally, so the command neither partially executes nor crashes the
watcher. -/
theorem C7_unauthorized_task_command_frame (env : IpcEnv) (st : IpcState)
    (data : TaskIpcData) (sourceGroup fileName tid : String) (task : Task)
    (htype : data.type = "pause_task" ∨ data.type = "resume_task" ∨
      data.type = "cancel_task")
    (htid : data.taskId = some tid) (htid' : tid ≠ "")
    (hfind : st.tasks.find? (fun t => t.id == tid) = some task)
    (hgrp : task.group_folder ≠ sourceGroup) :
    processTaskIpc env st data sourceGroup false = (st, [LogLevel.warn]) ∧
    processTaskFile env st (some data) sourceGroup fileName false
      = (st, [LogLevel.warn], FileAction.deleted) := by
  have hie : tid.isEmpty = false := by
    cases hb : tid.isEmpty with
    | false => rfl
    | true => exact absurd ((String.isEmpty_iff tid).mp hb) htid'
  have htr : truthy (some tid) = true := by
    simp [truthy, hie]
  have hgrpb : (task.group_folder == sourceGroup) = false := by
    simp [hgrp]
  have hmain : processTaskIpc env st data sourceGroup false = (st, [LogLevel.warn]) := by
    rcases htype with ht | ht | ht <;>
      (unfold processTaskIpc
       rw [ht, htid]
       dsimp only [Option.getD]
       simp only [htr, hfind, hgrpb]
       simp [hfind, hgrpb])
  refine ⟨hmain, ?_⟩
  unfold processTaskFile
  dsimp only
  rw [hmain]

def taskT1 : Task :=
  ⟨"t1", "g3", "jid-3", "p", "cron", "0 0 * * *", "isolated", none, "active",
    "2025-01-01T00:00:00.000Z"⟩

def ipcStT1 : IpcState := ⟨[taskT1], []⟩

def pauseT1Data : TaskIpcData :=
  ⟨"pause_task", some "t1", none, none, none, none, none, none, none, none,
    none, none, none, none⟩

/-- Concrete instantiation of C7: group `g2` pausing `g3`'s task `t1` leaves
the state unchanged with one warning. -/
theorem C7_unauthorized_task_command_frame_witness :
    processTaskIpc ipcEnv0 ipcStT1 pauseT1Data "g2" false
      = (ipcStT1, [LogLevel.warn]) :=
  (C7_unauthorized_task_command_frame ipcEnv0 ipcStT1 pauseT1Data "g2" "f.json"
    "t1" taskT1 (Or.inl rfl) rfl (by decide) (by decide) (by decide)).1

/-! ## C10: register_group requires a non-empty trigger -/

theorem processTaskIpc_register_group (env : IpcEnv) (st : IpcState)
    (data : TaskIpcData) (sourceGroup : String) (isMain : Bool)
    (htype : data.type = "register_group") :
    processTaskIpc env st data sourceGroup isMain =
      if !isMain then (st, [LogLevel.warn])
      else if truthy data.jid && truthy data.name && truthy data.folder
          && truthy data.trigger then
        ({ st with registeredGroups :=
            (setAssocG st.registeredGroups (data.jid.getD "")
              ⟨data.name.getD "", data.folder.getD "", data.trigger.getD "",
                env.nowIso⟩) },
          [LogLevel.info])
      else (st, [LogLevel.warn]) := by
  unfold processTaskIpc
  rw [htype]
  rw [if_neg (by decide), if_neg (by decide), if_neg (by decide),
    if_neg (by decide), if_neg (by decide), if_pos rfl]

/-- C10: `register_group` creates (or overwrites) a registry entry iff the
caller is the privileged group and `jid`, `name`, `folder`, `trigger` are all
present and non-empty (JS truthiness); a request with `trigger = ""` is
rejected as missing required fields with a warning, so an auto-respond group
can never be created through the IPC bus, even by the privileged group. -/
theorem C10_register_group_trigger_required (env : IpcEnv) (st : IpcState)
    (data : TaskIpcData) (sourceGroup : String) (isMain : Bool)
    (htype : data.type = "register_group") :
    (¬(isMain = true ∧ truthy data.jid = true ∧ truthy data.name = true ∧
        truthy data.folder = true ∧ truthy data.trigger = true) →
      (processTaskIpc env st data sourceGroup isMain).1 = st) ∧
    (data.trigger = some "" →
      processTaskIpc env st data sourceGroup isMain = (st, [LogLevel.warn])) ∧
    (isMain = true → truthy data.jid = true → truthy data.name = true →
      truthy data.folder = true → truthy data.trigger = true →
      (processTaskIpc env st data sourceGroup isMain).1.registeredGroups
        = setAssocG st.registeredGroups (data.jid.getD "")
            ⟨data.name.getD "", data.folder.getD "", data.trigger.getD "",
              env.nowIso⟩) := by
  rw [processTaskIpc_register_group env st data sourceGroup isMain htype]
  refine ⟨?_, ?_, ?_⟩
  · intro hneg
    cases isMain with
    | false => simp
    | true =>
      by_cases hfields : (truthy data.jid && truthy data.name && truthy data.folder
          && truthy data.trigger) = true
      · exfalso
        apply hneg
        repeat rw [Bool.and_eq_true] at hfields
        exact ⟨rfl, hfields.1.1.1, hfields.1.1.2, hfields.1.2, hfields.2⟩
      · rw [Bool.not_eq_true] at hfields
        simp [hfields]
  · intro htrig
    cases isMain with
    | false => simp
    | true =>
      have htr : truthy data.trigger = false := by
        rw [htrig]
        rfl
      simp [htr]
  · intro hm hj hn hf ht
    subst hm
    simp [hj, hn, hf, ht]

def regDataEmptyTrigger : TaskIpcData :=
  ⟨"register_group", none, none, none, none, none, none, none, some "jid-9",
    some "New Group", some "g9", some "", none, none⟩

/-- Concrete instantiation of C10: even the privileged group cannot register a
group with `trigger = ""`. -/
theorem C10_register_group_trigger_required_witness :
    processTaskIpc ipcEnv0 ipcStT1 regDataEmptyTrigger "main" true
      = (ipcStT1, [LogLevel.warn]) :=
  (C10_register_group_trigger_required ipcEnv0 ipcStT1 regDataEmptyTrigger
    "main" true rfl).2.1 rfl

end NanoClaw
